import Mathlib

/-!
Shallow embedding of the `freedesktop-apps` crate (desktop-entry parser and
launch-command pipeline), translated from `src/freedesktop-apps/src/parser.rs`
and `src/freedesktop-apps/src/lib.rs`.

Strings are modelled as `List Char`; Rust's byte indices coincide with
character indices on the ASCII inputs the claims exercise.  The filesystem
and environment interactions of the launch pipeline (TryExec probing and
terminal discovery) are passed in explicitly as an `Env` record.
-/

deriving instance DecidableEq for Except

namespace Freedesktop

/-- Rust `char::is_whitespace`, restricted to the ASCII whitespace characters
(space, tab, newline, carriage return, vertical tab, form feed); the claims
only exercise ASCII input. -/
def rust_is_whitespace (c : Char) : Bool :=
  c = ' ' || c = '\t' || c = '\n' || c = '\r' || c = '\x0b' || c = '\x0c'

/-- Rust `str::trim`: drop whitespace from both ends. -/
def trim (l : List Char) : List Char :=
  ((l.dropWhile rust_is_whitespace).reverse.dropWhile rust_is_whitespace).reverse

/-- Rust `str::find(char)`: index of the first occurrence of `c`. -/
def find_char (c : Char) : List Char → Option Nat
  | [] => none
  | x :: xs => if x = c then some 0 else (find_char c xs).map (· + 1)

/-- Lookup in an association list (models `HashMap::get`). -/
def alistGet {α : Type} (k : List Char) : List (List Char × α) → Option α
  | [] => none
  | (k', v) :: rest => if k' = k then some v else alistGet k rest

/-- Insert into an association list, overwriting an existing binding
(models `HashMap::insert`, last write wins). -/
def alistInsert {α : Type} (k : List Char) (v : α) : List (List Char × α) → List (List Char × α)
  | [] => [(k, v)]
  | (k', v') :: rest => if k' = k then (k, v) :: rest else (k', v') :: alistInsert k v rest

/-- Errors of `parser.rs` (`ParseError`). -/
inductive ParseError where
  | IoError (msg : String)
  | InvalidFormat (msg : String)
  | MissingRequiredKey (msg : String)
deriving DecidableEq, Repr

/-- Typed values of `parser.rs` (`ValueType`).  The `Numeric` payload keeps
the accepted (unescaped) text instead of the `f64` it denotes, since the
numeric value itself is never consumed by the code under verification. -/
inductive ValueType where
  | String (s : List Char)
  | LocaleString (s : List Char)
  | IconString (s : List Char)
  | Boolean (b : Bool)
  | Numeric (s : List Char)
  | StringList (items : List (List Char))
  | LocaleStringList (items : List (List Char))
deriving DecidableEq, Repr

/-- `parser.rs::unescape_value`: resolve the escape sequences
`\s \n \t \r \\ \;`; any other `\X` is kept verbatim; a trailing lone
backslash is kept. -/
def unescape_value : List Char → List Char
  | [] => []
  | '\\' :: rest =>
    match rest with
    | [] => ['\\']
    | c :: rest' =>
      match c with
      | 's' => ' ' :: unescape_value rest'
      | 'n' => '\n' :: unescape_value rest'
      | 't' => '\t' :: unescape_value rest'
      | 'r' => '\r' :: unescape_value rest'
      | '\\' => '\\' :: unescape_value rest'
      | ';' => ';' :: unescape_value rest'
      | _ => '\\' :: c :: unescape_value rest'
  | c :: rest => c :: unescape_value rest

/-- Strip one optional leading sign (`+`/`-`). -/
def strip_sign : List Char → List Char
  | '+' :: r => r
  | '-' :: r => r
  | l => l

/-- One or more ASCII digits. -/
def is_digits (l : List Char) : Bool :=
  !l.isEmpty && l.all Char.isDigit

/-- The exponent part of Rust's float grammar: `('e'|'E') sign? digits`
with the leading `e`/`E` already removed. -/
def is_exp_tail (l : List Char) : Bool :=
  is_digits (strip_sign l)

/-- The mantissa of Rust's float grammar:
`digits '.' digits? | digits | '.' digits`. -/
def is_mantissa (l : List Char) : Bool :=
  let intPart := l.takeWhile Char.isDigit
  let rest := l.dropWhile Char.isDigit
  match rest with
  | [] => !intPart.isEmpty
  | '.' :: frac => frac.all Char.isDigit && (!intPart.isEmpty || !frac.isEmpty)
  | _ => false

/-- Split a (sign-stripped) float body at the first `e`/`E`, if any. -/
def split_exp : List Char → List Char × Option (List Char)
  | [] => ([], none)
  | c :: rest =>
    if c = 'e' || c = 'E' then ([], some rest)
    else
      let (m, e) := split_exp rest
      (c :: m, e)

/-- Models the acceptance condition of Rust's `str::parse::<f64>`
(std `FromStr for f64` grammar):
`sign? ('inf' | 'infinity' | 'nan' | number)` case-insensitively, where
`number = mantissa exp?`.  Out-of-range numbers still parse (to infinity),
so acceptance is purely grammatical. -/
def rust_f64_accepts (l : List Char) : Bool :=
  let body := strip_sign l
  let low := body.map Char.toLower
  if low = "inf".toList || low = "infinity".toList || low = "nan".toList then true
  else
    let (m, e) := split_exp body
    is_mantissa m &&
      (match e with
       | none => true
       | some tail => is_exp_tail tail)

/-- Finalize the current item of `split_semicolon_list`: trim it and, when
non-empty, unescape it; an empty (after trim) item is dropped. -/
def ssl_finalize (current : List Char) : List (List Char) :=
  let t := trim current
  if t.isEmpty then [] else [unescape_value t]

/-- Loop of `parser.rs::split_semicolon_list`, with the accumulated current
item passed explicitly. -/
def ssl_go (current : List Char) : List Char → List (List Char)
  | [] => ssl_finalize current
  | '\\' :: rest =>
    match rest with
    | ';' :: r => ssl_go (current ++ [';']) r
    | c :: r => ssl_go (current ++ ['\\', c]) r
    | [] => ssl_finalize (current ++ ['\\'])
  | ';' :: rest => ssl_finalize current ++ ssl_go [] rest
  | c :: rest => ssl_go (current ++ [c]) rest

/-- `parser.rs::split_semicolon_list`: split on unescaped `;`, trimming each
item, unescaping it, and dropping empties. -/
def split_semicolon_list (value : List Char) : List (List Char) :=
  ssl_go [] value

/-- `parser.rs::parse_value`: classify a raw value as Boolean, Numeric,
StringList or String.  (The Rust function returns `Result` but never
errs, so it is modelled as total.) -/
def parse_value (value : List Char) : ValueType :=
  let unescaped := unescape_value value
  if unescaped.map Char.toLower = "true".toList then .Boolean true
  else if unescaped.map Char.toLower = "false".toList then .Boolean false
  else if rust_f64_accepts unescaped then .Numeric unescaped
  else if value.contains ';' then .StringList (split_semicolon_list value)
  else .String unescaped

/-- `parser.rs::LocalizedKey::parse`: split `KeyName[localeTag]` at the
first `[` and the first `]`; when brackets are absent or the first `]`
does not come after the first `[`, the whole input is the key. -/
def localized_key_parse (input : List Char) : List Char × Option (List Char) :=
  match find_char '[' input, find_char ']' input with
  | some bs, some be =>
    if bs < be then (input.take bs, some ((input.take be).drop (bs + 1)))
    else (input, none)
  | _, _ => (input, none)

/-- `parser.rs::DesktopEntryGroup`. -/
structure DesktopEntryGroup where
  name : List Char
  fields : List (List Char × ValueType)
  localized_fields : List (List Char × List (List Char × ValueType))
deriving DecidableEq, Repr

/-- `DesktopEntryGroup::new`. -/
def DesktopEntryGroup.new (name : List Char) : DesktopEntryGroup :=
  { name := name, fields := [], localized_fields := [] }

/-- `DesktopEntryGroup::insert_field`: a key with a locale suffix goes into
the nested `localized_fields` map, otherwise into `fields`. -/
def DesktopEntryGroup.insert_field (g : DesktopEntryGroup) (key : List Char)
    (value : ValueType) : DesktopEntryGroup :=
  match localized_key_parse key with
  | (k, some locale) =>
    let m := (alistGet k g.localized_fields).getD []
    { g with localized_fields := alistInsert k (alistInsert locale value m) g.localized_fields }
  | (k, none) => { g with fields := alistInsert k value g.fields }

/-- `DesktopEntryGroup::get_field`. -/
def DesktopEntryGroup.get_field (g : DesktopEntryGroup) (key : List Char) : Option ValueType :=
  alistGet key g.fields

/-- `parser.rs::DesktopEntryGroup::parse_locale_components`: split
`lang[_COUNTRY][@MODIFIER]`; the modifier keeps its leading `@`. -/
def parse_locale_components (locale : List Char) :
    List Char × Option (List Char) × Option (List Char) :=
  let (base, modifier) :=
    match find_char '@' locale with
    | some i => (locale.take i, some (locale.drop i))
    | none => (locale, none)
  let (lang, country) :=
    match find_char '_' base with
    | some i => (base.take i, some (base.drop (i + 1)))
    | none => (base, none)
  (lang, country, modifier)

/-- `parser.rs::DesktopEntryGroup::try_locale_fallback`: strip any
`.ENCODING` suffix from the requested locale, decompose it, and try
`lang_COUNTRY@MODIFIER`, `lang_COUNTRY`, `lang@MODIFIER`, `lang` in order,
skipping the combinations whose component is absent. -/
def try_locale_fallback (m : List (List Char × ValueType)) (locale : List Char) :
    Option ValueType :=
  let lwe :=
    match find_char '.' locale with
    | some i => locale.take i
    | none => locale
  match parse_locale_components lwe with
  | (lang, some country, some modifier) =>
    match alistGet (lang ++ ['_'] ++ country ++ modifier) m with
    | some v => some v
    | none =>
      match alistGet (lang ++ ['_'] ++ country) m with
      | some v => some v
      | none =>
        match alistGet (lang ++ modifier) m with
        | some v => some v
        | none => alistGet lang m
  | (lang, some country, none) =>
    match alistGet (lang ++ ['_'] ++ country) m with
    | some v => some v
    | none => alistGet lang m
  | (lang, none, some modifier) =>
    match alistGet (lang ++ modifier) m with
    | some v => some v
    | none => alistGet lang m
  | (lang, none, none) => alistGet lang m

/-- `parser.rs::DesktopEntryGroup::get_localized_field`: with a requested
locale, try the exact stored tag, then the fallback ladder, then the
non-localized field; with no locale, the non-localized field only. -/
def DesktopEntryGroup.get_localized_field (g : DesktopEntryGroup) (key : List Char)
    (locale : Option (List Char)) : Option ValueType :=
  match locale with
  | some loc =>
    match alistGet key g.localized_fields with
    | some m =>
      match alistGet loc m with
      | some v => some v
      | none =>
        match try_locale_fallback m loc with
        | some v => some v
        | none => alistGet key g.fields
    | none => alistGet key g.fields
  | none => alistGet key g.fields

/-- `parser.rs::is_valid_key_name`: after dropping a `[...]` locale suffix,
every character must be ASCII alphanumeric or `-`. -/
def is_valid_key_name (key : List Char) : Bool :=
  let base :=
    match find_char '[' key with
    | some i => key.take i
    | none => key
  base.all (fun c => c.isAlphanum || c = '-')

/-- The group-header regex `^\[([^\[\]]+)\]$` applied to a trimmed line:
returns the captured name when the line is a well-formed header. -/
def group_header? (line : List Char) : Option (List Char) :=
  match line with
  | '[' :: rest =>
    match rest.reverse with
    | ']' :: innerRev =>
      let inner := innerRev.reverse
      if !inner.isEmpty && inner.all (fun c => c ≠ '[' && c ≠ ']') then some inner
      else none
    | _ => none
  | _ => none

/-- `parser.rs::DesktopEntry`. -/
structure DesktopEntry where
  path : List Char
  groups : List (List Char × DesktopEntryGroup)
deriving DecidableEq, Repr

/-- Line loop of `DesktopEntry::from_path`, over the already-read lines. -/
def from_lines_go (current_group : Option (List Char)) (entry : DesktopEntry) :
    List (List Char) → Except ParseError DesktopEntry
  | [] => .ok entry
  | rawLine :: rest =>
    let line := trim rawLine
    if line.isEmpty || line.head? = some '#' then
      from_lines_go current_group entry rest
    else
      match group_header? line with
      | some group_name =>
        let groups' :=
          if (alistGet group_name entry.groups).isSome then entry.groups
          else alistInsert group_name (DesktopEntryGroup.new group_name) entry.groups
        from_lines_go (some group_name) { entry with groups := groups' } rest
      | none =>
        match find_char '=' line with
        | some eq_pos =>
          let key := trim (line.take eq_pos)
          let value := trim (line.drop (eq_pos + 1))
          if key.isEmpty then
            from_lines_go current_group entry rest
          else if !is_valid_key_name key then
            .error (.InvalidFormat ("Invalid key name: " ++ String.mk key))
          else
            match current_group with
            | some group_name =>
              let entry' :=
                match alistGet group_name entry.groups with
                | some g =>
                  { entry with groups :=
                      alistInsert group_name (g.insert_field key (parse_value value)) entry.groups }
                | none => entry
              from_lines_go current_group entry' rest
            | none =>
              .error (.InvalidFormat "Key-value pair found before any group header")
        | none => from_lines_go current_group entry rest

/-- `parser.rs::DesktopEntry::validate`: required-key checks on the
`Desktop Entry` group. -/
def DesktopEntry.validate (e : DesktopEntry) : Except ParseError Unit :=
  match alistGet "Desktop Entry".toList e.groups with
  | none => .error (.MissingRequiredKey "Desktop Entry group is required")
  | some g =>
    match g.get_field "Type".toList with
    | none => .error (.MissingRequiredKey "Type key is required")
    | some entry_type =>
      match g.get_field "Name".toList with
      | none => .error (.MissingRequiredKey "Name key is required")
      | some _ =>
        match entry_type with
        | .String type_val =>
          if type_val = "Application".toList then
            let dbus_activatable :=
              match g.get_field "DBusActivatable".toList with
              | some (.Boolean b) => b
              | _ => false
            if !dbus_activatable then
              match g.get_field "Exec".toList with
              | none => .error (.MissingRequiredKey "Exec key is required for Application type")
              | some _ => .ok ()
            else .ok ()
          else if type_val = "Link".toList then
            match g.get_field "URL".toList with
            | none => .error (.MissingRequiredKey "URL key is required for Link type")
            | some _ => .ok ()
          else .ok ()
        | _ => .ok ()

/-- `DesktopEntry::from_path`, with the file contents already read: `none`
models an I/O failure while opening the file; otherwise the loop runs over
the lines and the result is validated. -/
def DesktopEntry.from_lines (path : List Char) (contents : Option (List (List Char))) :
    Except ParseError DesktopEntry :=
  match contents with
  | none => .error (.IoError "Failed to open file")
  | some lines => do
    let entry ← from_lines_go none { path := path, groups := [] } lines
    entry.validate
    .ok entry

/-- `DesktopEntry::get_desktop_entry_group`. -/
def DesktopEntry.get_desktop_entry_group (e : DesktopEntry) : Option DesktopEntryGroup :=
  alistGet "Desktop Entry".toList e.groups

/-- Errors of `lib.rs` (`ExecuteError`). -/
inductive ExecuteError where
  | NotExecutable (msg : String)
  | TerminalNotFound
  | InvalidCommand (msg : String)
  | IoError (msg : String)
  | ValidationFailed (msg : String)
deriving DecidableEq, Repr

/-- `lib.rs::ApplicationEntry`: a wrapper around a parsed document. -/
structure ApplicationEntry where
  inner : DesktopEntry
deriving DecidableEq, Repr

/-- `ApplicationEntry::default()` (derived `Default`): empty path, no groups. -/
def ApplicationEntry.default : ApplicationEntry :=
  ⟨{ path := [], groups := [] }⟩

/-- `ApplicationEntry::get_string`: a `String`-like field of the
`Desktop Entry` group. -/
def ApplicationEntry.get_string (e : ApplicationEntry) (key : List Char) : Option (List Char) :=
  match e.inner.get_desktop_entry_group with
  | none => none
  | some g =>
    match g.get_field key with
    | some (.String s) => some s
    | some (.LocaleString s) => some s
    | some (.IconString s) => some s
    | _ => none

/-- `ApplicationEntry::get_localized_string`. -/
def ApplicationEntry.get_localized_string (e : ApplicationEntry) (key : List Char)
    (locale : Option (List Char)) : Option (List Char) :=
  match e.inner.get_desktop_entry_group with
  | none => none
  | some g =>
    match g.get_localized_field key locale with
    | some (.String s) => some s
    | some (.LocaleString s) => some s
    | some (.IconString s) => some s
    | _ => none

/-- `ApplicationEntry::get_bool`. -/
def ApplicationEntry.get_bool (e : ApplicationEntry) (key : List Char) : Option Bool :=
  match e.inner.get_desktop_entry_group with
  | none => none
  | some g =>
    match g.get_field key with
    | some (.Boolean b) => some b
    | _ => none

/-- `ApplicationEntry::get_numeric` (the stored numeric text, see `ValueType`). -/
def ApplicationEntry.get_numeric (e : ApplicationEntry) (key : List Char) : Option (List Char) :=
  match e.inner.get_desktop_entry_group with
  | none => none
  | some g =>
    match g.get_field key with
    | some (.Numeric n) => some n
    | _ => none

/-- `ApplicationEntry::get_vec`. -/
def ApplicationEntry.get_vec (e : ApplicationEntry) (key : List Char) :
    Option (List (List Char)) :=
  match e.inner.get_desktop_entry_group with
  | none => none
  | some g =>
    match g.get_field key with
    | some (.StringList l) => some l
    | some (.LocaleStringList l) => some l
    | _ => none

/-- `ApplicationEntry::name`. -/
def ApplicationEntry.name (e : ApplicationEntry) : Option (List Char) :=
  e.get_string "Name".toList

/-- `ApplicationEntry::exec`. -/
def ApplicationEntry.exec (e : ApplicationEntry) : Option (List Char) :=
  e.get_string "Exec".toList

/-- `ApplicationEntry::icon`. -/
def ApplicationEntry.icon (e : ApplicationEntry) : Option (List Char) :=
  e.get_string "Icon".toList

/-- `ApplicationEntry::entry_type`. -/
def ApplicationEntry.entry_type (e : ApplicationEntry) : Option (List Char) :=
  e.get_string "Type".toList

/-- `ApplicationEntry::generic_name`. -/
def ApplicationEntry.generic_name (e : ApplicationEntry) : Option (List Char) :=
  e.get_string "GenericName".toList

/-- `ApplicationEntry::comment`. -/
def ApplicationEntry.comment (e : ApplicationEntry) : Option (List Char) :=
  e.get_string "Comment".toList

/-- `ApplicationEntry::terminal`. -/
def ApplicationEntry.terminal (e : ApplicationEntry) : Bool :=
  (e.get_bool "Terminal".toList).getD false

/-- `ApplicationEntry::path` (the stored source path). -/
def ApplicationEntry.path (e : ApplicationEntry) : List Char :=
  e.inner.path

/-- `ApplicationEntry::try_from_path`, over already-read contents. -/
def ApplicationEntry.try_from_path (path : List Char) (contents : Option (List (List Char))) :
    Except ParseError ApplicationEntry :=
  match DesktopEntry.from_lines path contents with
  | .ok d => .ok ⟨d⟩
  | .error e => .error e

/-- `ApplicationEntry::from_path`: on any parse failure, fall back to the
default (empty) entry. -/
def ApplicationEntry.from_path (path : List Char) (contents : Option (List (List Char))) :
    ApplicationEntry :=
  match ApplicationEntry.try_from_path path contents with
  | .ok e => e
  | .error _ => ApplicationEntry.default

/-- The external environment of the launch pipeline:
`exec_available` models `is_executable_available` (filesystem and `PATH`
probing) and `terminal` models the result of `find_terminal`. -/
structure Env where
  exec_available : List Char → Bool
  terminal : Option (List Char)

/-- `lib.rs::shell_escape`: wrap in single quotes (escaping embedded single
quotes as `'"'"'`) when the string contains a shell metacharacter. -/
def shell_escape (s : List Char) : List Char :=
  if s.any (fun c => (" \t\n'\"\\$`()[]\x7b\x7d?*~&|;<>".toList).contains c) then
    '\'' :: (s.map (fun c => if c = '\'' then "'\"'\"'".toList else [c])).flatten ++ ['\'']
  else s

/-- `ApplicationEntry::validate_executable`: `Exec` must be present and
non-empty; a present `TryExec` must be available. -/
def ApplicationEntry.validate_executable (env : Env) (e : ApplicationEntry) :
    Except ExecuteError Unit :=
  match e.exec with
  | none => .error (.NotExecutable "No Exec key found")
  | some ex =>
    if (trim ex).isEmpty then .error (.NotExecutable "Exec key is empty")
    else
      match e.get_string "TryExec".toList with
      | some try_exec =>
        if !env.exec_available try_exec then
          .error (.ValidationFailed "TryExec not found or not executable")
        else .ok ()
      | none => .ok ()

/-- Loop of `ApplicationEntry::expand_field_codes`, with the accumulated
output passed explicitly; an unknown field code aborts expansion, returning
the output so far followed by the unexpanded remainder of the template. -/
def expand_go (e : ApplicationEntry) (files urls : List (List Char)) (acc : List Char) :
    List Char → List Char
  | [] => acc
  | '%' :: rest =>
    match rest with
    | [] => acc ++ ['%']
    | c :: rest' =>
      match c with
      | '%' => expand_go e files urls (acc ++ ['%']) rest'
      | 'f' => expand_go e files urls (acc ++ ((files.head?.map shell_escape).getD [])) rest'
      | 'F' => expand_go e files urls (acc ++ List.intercalate [' '] (files.map shell_escape)) rest'
      | 'u' => expand_go e files urls (acc ++ ((urls.head?.map shell_escape).getD [])) rest'
      | 'U' => expand_go e files urls (acc ++ List.intercalate [' '] (urls.map shell_escape)) rest'
      | 'i' =>
        expand_go e files urls
          (acc ++ (match e.icon with
                   | some ic => "--icon ".toList ++ shell_escape ic
                   | none => [])) rest'
      | 'c' => expand_go e files urls (acc ++ ((e.name.map shell_escape).getD [])) rest'
      | 'k' => expand_go e files urls (acc ++ shell_escape e.path) rest'
      | 'd' => expand_go e files urls acc rest'
      | 'D' => expand_go e files urls acc rest'
      | 'n' => expand_go e files urls acc rest'
      | 'N' => expand_go e files urls acc rest'
      | 'v' => expand_go e files urls acc rest'
      | 'm' => expand_go e files urls acc rest'
      | _ => acc ++ ['%', c] ++ rest'
  | c :: rest => expand_go e files urls (acc ++ [c]) rest

/-- `ApplicationEntry::expand_field_codes`. -/
def ApplicationEntry.expand_field_codes (e : ApplicationEntry) (exec : List Char)
    (files urls : List (List Char)) : List Char :=
  expand_go e files urls [] exec

/-- Whether a character separates tokens outside quotes (space or tab). -/
def is_sep (c : Char) : Bool :=
  c = ' ' || c = '\t'

/-- Loop of `lib.rs::parse_command_line`: returns the collected parts, the
pending current token, and whether a quote is still open.  The source
additionally skips the remaining consecutive separators inside the
separator arm; that skip is redundant (each further separator falls into
the same arm with an empty current token, changing nothing) and is
modelled here by plain recursion so the function stays structurally
recursive. -/
def pcl_go (parts : List (List Char)) (current : List Char) (in_quotes : Bool)
    (quote_char : Char) : List Char → List (List Char) × List Char × Bool
  | [] => (parts, current, in_quotes)
  | ch :: rest =>
    if (ch = '"' || ch = '\'') && !in_quotes then
      pcl_go parts current true ch rest
    else if ch = quote_char && in_quotes then
      pcl_go parts current false quote_char rest
    else if ch = '\\' && in_quotes then
      match rest with
      | [] => (parts, current ++ ['\\'], in_quotes)
      | c :: rest' =>
        if c = '"' || c = '\'' || c = '\\' || c = '$' || c = '`' then
          pcl_go parts (current ++ [c]) in_quotes quote_char rest'
        else
          pcl_go parts (current ++ ['\\', c]) in_quotes quote_char rest'
    else if is_sep ch && !in_quotes then
      let parts' := if !current.isEmpty then parts ++ [current] else parts
      pcl_go parts' [] in_quotes quote_char rest
    else
      pcl_go parts (current ++ [ch]) in_quotes quote_char rest

/-- `lib.rs::parse_command_line`: tokenize an expanded command into a
program and its arguments. -/
def parse_command_line (command : List Char) :
    Except ExecuteError (List Char × List (List Char)) :=
  match pcl_go [] [] false '"' command with
  | (parts, current, in_quotes) =>
    let parts := if !current.isEmpty then parts ++ [current] else parts
    if in_quotes then .error (.InvalidCommand "Unterminated quote")
    else
      match parts with
      | [] => .error (.InvalidCommand "Empty command")
      | program :: args => .ok (program, args)

/-- `ApplicationEntry::wrap_with_terminal`. -/
def wrap_with_terminal (env : Env) (program : List Char) (args : List (List Char)) :
    Except ExecuteError (List Char × List (List Char)) :=
  match env.terminal with
  | none => .error .TerminalNotFound
  | some t => .ok (t, "-e".toList :: program :: args)

/-- `ApplicationEntry::prepare_command`: validate, expand and tokenize
`Exec`, then wrap with a terminal when `Terminal` is true.  (The Rust code
reaches `Exec` after validation via `unwrap`; that unreachable `None` case
is modelled with `getD []`.) -/
def ApplicationEntry.prepare_command (env : Env) (e : ApplicationEntry)
    (files urls : List (List Char)) :
    Except ExecuteError (List Char × List (List Char)) := do
  e.validate_executable env
  let exec := (e.exec).getD []
  let (program, args) ← parse_command_line (e.expand_field_codes exec files urls)
  if e.terminal then wrap_with_terminal env program args
  else .ok (program, args)

/-! Specification-side definitions, written from the spec's words, for the
claims that compare the code against a described procedure. -/

/-- From the spec (§4.2): the candidate locale tags tried in order for a
requested locale, skipping combinations whose component is absent:
`lang_COUNTRY@MODIFIER`, `lang_COUNTRY`, `lang@MODIFIER`, `lang`. -/
def spec_locale_candidates (loc : List Char) : List (List Char) :=
  match parse_locale_components loc with
  | (lang, some country, some modifier) =>
    [lang ++ ['_'] ++ country ++ modifier, lang ++ ['_'] ++ country, lang ++ modifier, lang]
  | (lang, some country, none) => [lang ++ ['_'] ++ country, lang]
  | (lang, none, some modifier) => [lang ++ modifier, lang]
  | (lang, none, none) => [lang]

/-- First hit of a list of exact-string lookups against a stored map. -/
def lookup_chain (m : List (List Char × ValueType)) : List (List Char) → Option ValueType
  | [] => none
  | k :: ks =>
    match alistGet k m with
    | some v => some v
    | none => lookup_chain m ks

/-- From the spec (§4.2): resolution tries the candidate tags in order
against the stored locale variants, first hit wins, then falls back to the
base (non-localized) field; with no requested locale, only the base field. -/
def spec_resolve (g : DesktopEntryGroup) (key : List Char) (locale : Option (List Char)) :
    Option ValueType :=
  match locale with
  | some loc =>
    let m := (alistGet key g.localized_fields).getD []
    match lookup_chain m (spec_locale_candidates loc) with
    | some v => some v
    | none => alistGet key g.fields
  | none => alistGet key g.fields

/-- From the claim (C4): whether the raw text contains a semicolon that is
not preceded by an odd number of backslashes.  The parity flag records
whether an odd run of backslashes immediately precedes the current
character. -/
def hus_go (odd : Bool) : List Char → Bool
  | [] => false
  | '\\' :: r => hus_go (!odd) r
  | ';' :: r => if odd then hus_go false r else true
  | _ :: r => hus_go false r

/-- From the claim (C4): the raw text contains an unescaped semicolon. -/
def has_unescaped_semicolon (l : List Char) : Bool :=
  hus_go false l

/-- From the claim (C5): the entire text is a finite decimal number,
optionally signed, with an optional exponent — a pure decimal grammar with
no `inf`/`infinity`/`nan` alternatives. -/
def spec_finite_decimal (l : List Char) : Bool :=
  let body := strip_sign l
  let (m, e) := split_exp body
  is_mantissa m &&
    (match e with
     | none => true
     | some tail => is_exp_tail tail)

/-- A quoted empty string: `''` when `b` is true, `""` otherwise. -/
def quote_pair (b : Bool) : List Char :=
  if b then ['\'', '\''] else ['"', '"']

/-- A command consisting only of quoted empty strings separated by single
spaces (for C10). -/
def quotes_cmd : List Bool → List Char
  | [] => []
  | [b] => quote_pair b
  | b :: rest => quote_pair b ++ ' ' :: quotes_cmd rest

/-- The tail of `spec_locale_candidates` reassembled into the requested
locale: `lang[_COUNTRY][@MODIFIER]`. -/
def reconstruct_locale : List Char × Option (List Char) × Option (List Char) → List Char
  | (lang, some country, some modifier) => lang ++ ['_'] ++ country ++ modifier
  | (lang, some country, none) => lang ++ ['_'] ++ country
  | (lang, none, some modifier) => lang ++ modifier
  | (lang, none, none) => lang

/-! Concrete fixtures used by the claims. -/

/-- A fixture source path. -/
def fixture_path : List Char :=
  "/usr/share/applications/test.desktop".toList

/-- Lines of a document with `Exec=echo %x` (unknown field code), for C1. -/
def c1_lines : List (List Char) :=
  ["[Desktop Entry]".toList, "Type=Application".toList, "Name=Test".toList,
   "Exec=echo %x".toList]

/-- The C1 entry parsed via the public constructor. -/
def c1_entry : ApplicationEntry :=
  ApplicationEntry.from_path fixture_path (some c1_lines)

/-- Group holding `Name[de]=X` and `Name[de_DE]=Y`, for C3. -/
def c3_group : DesktopEntryGroup :=
  ((DesktopEntryGroup.new "Desktop Entry".toList).insert_field
      "Name[de]".toList (parse_value "X".toList)).insert_field
    "Name[de_DE]".toList (parse_value "Y".toList)

/-- Lines of a document with `Type=Application`, `DBusActivatable=true` and
no `Exec` key, for C6. -/
def c6_lines : List (List Char) :=
  ["[Desktop Entry]".toList, "Type=Application".toList, "Name=Test".toList,
   "DBusActivatable=true".toList]

/-- The C6 DBus-activatable entry parsed via the public constructor. -/
def c6_entry : ApplicationEntry :=
  ApplicationEntry.from_path fixture_path (some c6_lines)

/-- Lines of a document whose `Exec` value is empty, for C6's witness. -/
def c6_empty_exec_lines : List (List Char) :=
  ["[Desktop Entry]".toList, "Type=Application".toList, "Name=Test".toList,
   "Exec=".toList]

/-- The empty-`Exec` entry parsed via the public constructor. -/
def c6_empty_exec_entry : ApplicationEntry :=
  ApplicationEntry.from_path fixture_path (some c6_empty_exec_lines)

/-- An environment with nothing executable and no terminal. -/
def env0 : Env :=
  { exec_available := fun _ => false, terminal := none }

/-- Lines with a non-blank, non-comment, non-header noise line before the
first group header, for C7. -/
def c7_lines : List (List Char) :=
  ["hello".toList, "[Desktop Entry]".toList, "Type=Application".toList,
   "Name=x".toList, "Exec=y".toList]

/-- A document whose first line is a key-value pair (no group header), for
C7's and C9's witnesses. -/
def c9_bad_lines : List (List Char) :=
  ["X=1".toList]

/-! Helper lemmas. -/

/-- `find_char` returns an index whose element is the sought character. -/
theorem find_char_drop {c : Char} {l : List Char} {i : Nat}
    (h : find_char c l = some i) : l.drop i = c :: l.drop (i + 1) := by
  induction l generalizing i with
  | nil => simp [find_char] at h
  | cons x xs ih =>
    by_cases hx : x = c
    · simp only [find_char, if_pos hx, Option.some.injEq] at h
      subst h
      simp [hx]
    · simp only [find_char, if_neg hx, Option.map_eq_some'] at h
      obtain ⟨j, hj, rfl⟩ := h
      simpa using ih hj

/-- Reassembling the components of `parse_locale_components` gives back the
input locale string. -/
theorem reconstruct_parse_locale (loc : List Char) :
    reconstruct_locale (parse_locale_components loc) = loc := by
  unfold parse_locale_components
  cases hat : find_char '@' loc with
  | none =>
    cases hun : find_char '_' loc with
    | none => simp [hun, reconstruct_locale]
    | some j =>
      have hd := find_char_drop hun
      simp only [hun, reconstruct_locale]
      conv_rhs => rw [← List.take_append_drop j loc, hd]
      simp
  | some i =>
    cases hun : find_char '_' (loc.take i) with
    | none =>
      simp only [hun, reconstruct_locale]
      exact List.take_append_drop i loc
    | some j =>
      have hd := find_char_drop hun
      simp only [hun, reconstruct_locale]
      conv_rhs => rw [← List.take_append_drop i loc, ← List.take_append_drop j (loc.take i), hd]
      simp

/-- A lookup in the empty association list fails, so a whole chain does. -/
theorem lookup_chain_nil (ks : List (List Char)) : lookup_chain [] ks = none := by
  induction ks with
  | nil => rfl
  | cons k ks ih => simp [lookup_chain, alistGet, ih]

/-- Looking up the freshly inserted key returns the inserted value. -/
theorem alistGet_insert_self {α : Type} (k : List Char) (v : α)
    (l : List (List Char × α)) : alistGet k (alistInsert k v l) = some v := by
  induction l with
  | nil => simp [alistInsert, alistGet]
  | cons p rest ih =>
    obtain ⟨k', v'⟩ := p
    by_cases h : k' = k
    · simp [alistInsert, alistGet, h]
    · simp [alistInsert, alistGet, h, ih]

/-- For a requested locale without an encoding suffix, the exact-match step
followed by the code's fallback ladder is the spec's candidate chain. -/
theorem exact_then_fallback_eq_chain (m : List (List Char × ValueType)) (loc : List Char)
    (hdot : find_char '.' loc = none) :
    (match alistGet loc m with
     | some v => some v
     | none => try_locale_fallback m loc) = lookup_chain m (spec_locale_candidates loc) := by
  unfold try_locale_fallback spec_locale_candidates
  simp only [hdot]
  have hrec := reconstruct_parse_locale loc
  rcases hplc : parse_locale_components loc with ⟨lang, copt, mopt⟩
  rw [hplc] at hrec
  rcases copt with _ | c <;> rcases mopt with _ | md <;>
    simp only [reconstruct_locale] at hrec <;> rw [← hrec]
  · cases h1 : alistGet lang m <;> simp [lookup_chain, h1]
  · cases h1 : alistGet (lang ++ md) m <;>
      cases h2 : alistGet lang m <;>
      simp [lookup_chain, h1, h2]
  · simp only [List.append_assoc, List.singleton_append]
    cases h1 : alistGet (lang ++ '_' :: c) m <;>
      cases h2 : alistGet lang m <;>
      simp [lookup_chain, h1, h2]
  · simp only [List.append_assoc, List.singleton_append]
    cases h1 : alistGet (lang ++ '_' :: (c ++ md)) m <;>
      cases h2 : alistGet (lang ++ '_' :: c) m <;>
      cases h3 : alistGet (lang ++ md) m <;>
      cases h4 : alistGet lang m <;>
      simp [lookup_chain, h1, h2, h3, h4]

/-! Claim theorems. -/

/-- Claim C2: for the template `echo %f` and the single file `a b.txt`,
expansion (which shell-escapes the file) followed by tokenization yields
program `echo` with exactly one argument `a b.txt`; the embedded space does
not split the argument. -/
theorem c2_space_file_single_argument :
    parse_command_line (ApplicationEntry.default.expand_field_codes "echo %f".toList
        ["a b.txt".toList] [])
      = .ok ("echo".toList, ["a b.txt".toList]) := by
  decide

/-- Claim C3: for any group and base key, resolution with a requested locale
(one without an encoding suffix) follows exactly the spec's search order —
`lang_COUNTRY@MODIFIER`, `lang_COUNTRY`, `lang@MODIFIER`, `lang`, then the
base field, first hit wins, skipping candidates whose component is absent;
with no requested locale only the base field is consulted; and on
`Name[de]=X`, `Name[de_DE]=Y` a request for `de_AT` returns `X`. -/
theorem c3_locale_fallback_order :
    (∀ (g : DesktopEntryGroup) (key loc : List Char), find_char '.' loc = none →
       g.get_localized_field key (some loc) = spec_resolve g key (some loc))
    ∧ (∀ (g : DesktopEntryGroup) (key : List Char),
        g.get_localized_field key none = alistGet key g.fields)
    ∧ c3_group.get_localized_field "Name".toList (some "de_AT".toList)
        = some (ValueType.String "X".toList) := by
  refine ⟨?_, fun g key => rfl, by decide⟩
  intro g key loc hdot
  unfold DesktopEntryGroup.get_localized_field spec_resolve
  cases hm : alistGet key g.localized_fields with
  | none => simp [lookup_chain_nil]
  | some m =>
    have h := exact_then_fallback_eq_chain m loc hdot
    simp only [Option.getD_some]
    rw [← h]
    cases hA : alistGet loc m <;>
      cases hF : try_locale_fallback m loc <;>
      simp [hA, hF]

/-- Witness for C3: the general order theorem applied to the concrete
`de_AT` request against the `Name[de]`/`Name[de_DE]` group. -/
theorem c3_locale_fallback_order_witness :
    c3_group.get_localized_field "Name".toList (some "de_AT".toList)
      = spec_resolve c3_group "Name".toList (some "de_AT".toList) :=
  c3_locale_fallback_order.1 c3_group "Name".toList "de_AT".toList (by decide)

/-- Claim C4 counterexample: the raw value `a\;b` contains no unescaped
semicolon (its only `;` is preceded by one backslash), yet `parse_value`
classifies it as a StringList — the code's list test is
`value.contains(';')`, not an unescaped-semicolon test. -/
theorem c4_escaped_semicolon_counterexample :
    has_unescaped_semicolon ('a' :: '\\' :: ';' :: 'b' :: []) = false
    ∧ parse_value ('a' :: '\\' :: ';' :: 'b' :: [])
        = .StringList [('a' :: ';' :: 'b' :: [])] := by
  decide

/-- Claim C4 as amended: classification yields StringList exactly when the
raw (pre-unescape) text contains any semicolon, escaped or not, and the
boolean and numeric cases do not apply; the resulting items come from
`split_semicolon_list`, which splits on unescaped semicolons, trims each
segment, unescapes it and drops empties — so `A;B;C;` yields `[A,B,C]` and
`;word1;word2;;` yields `[word1,word2]`. -/
theorem c4_semicolon_list_amended :
    (∀ raw : List Char,
       (unescape_value raw).map Char.toLower ≠ "true".toList →
       (unescape_value raw).map Char.toLower ≠ "false".toList →
       rust_f64_accepts (unescape_value raw) = false →
       raw.contains ';' = true →
       parse_value raw = .StringList (split_semicolon_list raw))
    ∧ (∀ (raw : List Char) (items : List (List Char)),
        parse_value raw = .StringList items →
        raw.contains ';' = true ∧ items = split_semicolon_list raw)
    ∧ split_semicolon_list "A;B;C;".toList = ["A".toList, "B".toList, "C".toList]
    ∧ split_semicolon_list ";word1;word2;;".toList = ["word1".toList, "word2".toList] := by
  refine ⟨?_, ?_, by decide, by decide⟩
  · intro raw h1 h2 h3 h4
    simp only [parse_value]
    rw [if_neg h1, if_neg h2, if_neg (by simp [h3]), if_pos h4]
  · intro raw items h
    simp only [parse_value] at h
    by_cases h1 : (unescape_value raw).map Char.toLower = "true".toList
    · rw [if_pos h1] at h
      exact absurd h (by simp)
    · rw [if_neg h1] at h
      by_cases h2 : (unescape_value raw).map Char.toLower = "false".toList
      · rw [if_pos h2] at h
        exact absurd h (by simp)
      · rw [if_neg h2] at h
        by_cases h3 : rust_f64_accepts (unescape_value raw) = true
        · rw [if_pos h3] at h
          exact absurd h (by simp)
        · rw [if_neg h3] at h
          by_cases h4 : raw.contains ';' = true
          · rw [if_pos h4] at h
            simp only [ValueType.StringList.injEq] at h
            exact ⟨h4, h.symm⟩
          · rw [if_neg h4] at h
            exact absurd h (by simp)

/-- Witness for C4's amended theorem: the forward direction applied to the
concrete raw value `A;B;C;`. -/
theorem c4_semicolon_list_amended_witness :
    parse_value "A;B;C;".toList = .StringList (split_semicolon_list "A;B;C;".toList) :=
  c4_semicolon_list_amended.1 "A;B;C;".toList (by decide) (by decide) (by decide) (by decide)

/-- Claim C5 counterexample: `inf` is not a finite decimal number, yet the
code classifies it as Numeric, because Rust's `f64` parser accepts the
`inf`/`infinity`/`nan` spellings. -/
theorem c5_inf_counterexample :
    spec_finite_decimal "inf".toList = false
    ∧ parse_value "inf".toList = .Numeric "inf".toList := by
  decide

/-- Claim C5 as amended: for a raw value that is not a boolean literal,
classification yields Numeric exactly when the entire unescaped text is
accepted by Rust's `f64` grammar — an optionally signed decimal with an
optional exponent, or one of the non-finite spellings `inf`, `infinity`,
`nan` (case-insensitive); out-of-range exponents also parse (to infinity)
and still classify as Numeric. -/
theorem c5_numeric_grammar_amended :
    ∀ raw : List Char,
      (unescape_value raw).map Char.toLower ≠ "true".toList →
      (unescape_value raw).map Char.toLower ≠ "false".toList →
      (parse_value raw = .Numeric (unescape_value raw)
        ↔ rust_f64_accepts (unescape_value raw) = true) := by
  intro raw h1 h2
  constructor
  · intro h
    by_cases h3 : rust_f64_accepts (unescape_value raw) = true
    · exact h3
    · exfalso
      simp only [parse_value] at h
      rw [if_neg h1, if_neg h2, if_neg h3] at h
      by_cases h4 : raw.contains ';' = true
      · rw [if_pos h4] at h
        simp at h
      · rw [if_neg h4] at h
        simp at h
  · intro hacc
    simp only [parse_value]
    rw [if_neg h1, if_neg h2, if_pos hacc]

/-- Witness for C5's amended theorem: applied to the concrete value `3.5e2`,
in both directions. -/
theorem c5_numeric_grammar_amended_witness :
    parse_value "3.5e2".toList = .Numeric "3.5e2".toList :=
  (c5_numeric_grammar_amended "3.5e2".toList (by decide) (by decide)).mpr (by decide)

/-- Claim C1 (code-bug evidence): on an unknown field code `%x`, expansion
stops (a later `%f` stays unexpanded) and the sentinel string is returned —
but the launch pipeline never rejects it: `prepare_command` on
`Exec=echo %x` tokenizes the sentinel like a normal command and returns
`Ok(("echo", ["%x"]))` instead of an `InvalidCommand` error, for every
environment. -/
theorem c1_unknown_field_code_not_rejected :
    ApplicationEntry.default.expand_field_codes "echo %x %f".toList ["f1".toList] []
      = "echo %x %f".toList
    ∧ (ApplicationEntry.try_from_path fixture_path (some c1_lines)).isOk = true
    ∧ ∀ env : Env, c1_entry.prepare_command env [] []
        = .ok ("echo".toList, ["%x".toList]) := by
  refine ⟨by decide, by decide, fun env => rfl⟩

/-- Claim C6: an entry whose `Exec` value is present but empty (after
trimming) always yields `NotExecutable` from the launch pipeline; and the
document with `Type=Application`, `DBusActivatable=true` and no `Exec` key
parses successfully yet the pipeline still yields `NotExecutable`. -/
theorem c6_missing_or_empty_exec_not_executable :
    (∀ (env : Env) (e : ApplicationEntry) (files urls : List (List Char)) (ex : List Char),
       e.exec = some ex → trim ex = [] →
       e.prepare_command env files urls = .error (.NotExecutable "Exec key is empty"))
    ∧ (ApplicationEntry.try_from_path fixture_path (some c6_lines)).isOk = true
    ∧ ∀ env : Env, c6_entry.prepare_command env [] []
        = .error (.NotExecutable "No Exec key found") := by
  refine ⟨?_, by decide, fun env => rfl⟩
  intro env e files urls ex hex htrim
  have hv : e.validate_executable env = .error (.NotExecutable "Exec key is empty") := by
    unfold ApplicationEntry.validate_executable
    rw [hex]
    simp [htrim]
  unfold ApplicationEntry.prepare_command
  rw [hv]
  rfl

/-- Witness for C6: the empty-`Exec` entry parsed from `Exec=` is rejected
as `NotExecutable` by the pipeline. -/
theorem c6_missing_or_empty_exec_not_executable_witness :
    c6_empty_exec_entry.prepare_command env0 [] []
      = .error (.NotExecutable "Exec key is empty") :=
  c6_missing_or_empty_exec_not_executable.1 env0 c6_empty_exec_entry [] [] []
    (by decide) (by decide)

/-- Claim C7 counterexample: `hello` is a non-blank, non-comment,
non-group-header line, yet a document starting with it parses successfully
— lines without `=` before the first group header are silently ignored,
not rejected with `InvalidFormat`. -/
theorem c7_noise_line_counterexample :
    trim "hello".toList ≠ []
    ∧ (trim "hello".toList).head? ≠ some '#'
    ∧ group_header? (trim "hello".toList) = none
    ∧ (DesktopEntry.from_lines fixture_path (some c7_lines)).isOk = true := by
  decide

/-- Claim C7 as amended: while before any group header, only a line
containing `=` with a non-empty trimmed key fails the parse with
`InvalidFormat` — with the key-before-group message when the key name is
valid, and with the invalid-key-name message otherwise; a non-blank,
non-comment, non-header line lacking `=` (or whose key is empty) is
silently skipped. -/
theorem c7_before_group_amended :
    (∀ (path first : List Char) (rest : List (List Char)) (i : Nat),
       (trim first).head? ≠ some '#' →
       group_header? (trim first) = none →
       find_char '=' (trim first) = some i →
       trim ((trim first).take i) ≠ [] →
       is_valid_key_name (trim ((trim first).take i)) = true →
       DesktopEntry.from_lines path (some (first :: rest))
         = .error (.InvalidFormat "Key-value pair found before any group header"))
    ∧ (∀ (path first : List Char) (rest : List (List Char)) (i : Nat),
        (trim first).head? ≠ some '#' →
        group_header? (trim first) = none →
        find_char '=' (trim first) = some i →
        trim ((trim first).take i) ≠ [] →
        is_valid_key_name (trim ((trim first).take i)) = false →
        DesktopEntry.from_lines path (some (first :: rest))
          = .error (.InvalidFormat
              ("Invalid key name: " ++ String.mk (trim ((trim first).take i)))))
    ∧ (∀ (entry : DesktopEntry) (first : List Char) (rest : List (List Char)),
        (trim first).isEmpty = false →
        (trim first).head? ≠ some '#' →
        group_header? (trim first) = none →
        (find_char '=' (trim first) = none
          ∨ ∃ i, find_char '=' (trim first) = some i ∧ trim ((trim first).take i) = []) →
        from_lines_go none entry (first :: rest) = from_lines_go none entry rest) := by
  refine ⟨?_, ?_, ?_⟩
  · intro path first rest i hcom hgh heq hkey hvalid
    have hne : (trim first).isEmpty = false := by
      cases htf : trim first with
      | nil => rw [htf] at heq; simp [find_char] at heq
      | cons a b => rfl
    have hkey2 : (trim ((trim first).take i)).isEmpty = false := by
      cases ht : trim ((trim first).take i) with
      | nil => exact absurd ht hkey
      | cons a b => rfl
    unfold DesktopEntry.from_lines
    simp only [from_lines_go, hne, hcom, hgh, heq, hkey2, hvalid]
    rfl
  · intro path first rest i hcom hgh heq hkey hvalid
    have hne : (trim first).isEmpty = false := by
      cases htf : trim first with
      | nil => rw [htf] at heq; simp [find_char] at heq
      | cons a b => rfl
    have hkey2 : (trim ((trim first).take i)).isEmpty = false := by
      cases ht : trim ((trim first).take i) with
      | nil => exact absurd ht hkey
      | cons a b => rfl
    unfold DesktopEntry.from_lines
    simp only [from_lines_go, hne, hcom, hgh, heq, hkey2, hvalid]
    rfl
  · intro entry first rest hne hcom hgh hdisj
    rcases hdisj with hnone | ⟨i, heq, hkey⟩
    · simp only [from_lines_go, hne, hcom, hgh, hnone]
      simp
    · simp only [from_lines_go, hne, hcom, hgh, heq, hkey]
      simp

/-- Witness for C7's amended theorem: applied to the concrete first line
`X=1` (valid key name, before any group header). -/
theorem c7_before_group_amended_witness :
    DesktopEntry.from_lines fixture_path (some ("X=1".toList :: []))
      = .error (.InvalidFormat "Key-value pair found before any group header") :=
  c7_before_group_amended.1 fixture_path "X=1".toList [] 1
    (by decide) (by decide) (by decide) (by decide) (by decide)

/-- Claim C8 counterexample: the key `Name[de_DE.UTF-8]` is stored with the
locale tag `de_DE.UTF-8` verbatim — the `.UTF-8` encoding suffix is not
discarded at parse time and does reach the localized-field map. -/
theorem c8_encoding_stored_counterexample :
    (((DesktopEntryGroup.new "G".toList).insert_field "Name[de_DE.UTF-8]".toList
        (ValueType.String "x".toList)).localized_fields
      = [("Name".toList, [("de_DE.UTF-8".toList, ValueType.String "x".toList)])])
    ∧ "de_DE.UTF-8".toList.contains '.' = true := by
  decide

/-- Claim C8 as amended: the locale tag captured from a key's brackets is
stored verbatim, including any `.ENCODING` component; encoding stripping
happens only on the requested locale during resolution.  The stored
encoded tag is still reachable by an exact-match request. -/
theorem c8_encoding_stored_verbatim_amended :
    (∀ (g : DesktopEntryGroup) (key : List Char) (v : ValueType) (base tag : List Char),
       localized_key_parse key = (base, some tag) →
       alistGet base ((g.insert_field key v).localized_fields)
         = some (alistInsert tag v ((alistGet base g.localized_fields).getD [])))
    ∧ localized_key_parse "Name[de_DE.UTF-8]".toList
        = ("Name".toList, some "de_DE.UTF-8".toList)
    ∧ ((DesktopEntryGroup.new "G".toList).insert_field "Name[de_DE.UTF-8]".toList
         (ValueType.String "x".toList)).get_localized_field "Name".toList
         (some "de_DE.UTF-8".toList) = some (ValueType.String "x".toList) := by
  refine ⟨?_, by decide, by decide⟩
  intro g key v base tag h
  simp only [DesktopEntryGroup.insert_field, h]
  exact alistGet_insert_self _ _ _

/-- Witness for C8's amended theorem: applied to the concrete encoded key
`Name[de_DE.UTF-8]` inserted into a fresh group. -/
theorem c8_encoding_stored_verbatim_amended_witness :
    alistGet "Name".toList
        (((DesktopEntryGroup.new "G".toList).insert_field "Name[de_DE.UTF-8]".toList
          (ValueType.String "x".toList)).localized_fields)
      = some (alistInsert "de_DE.UTF-8".toList (ValueType.String "x".toList)
          ((alistGet "Name".toList
            (DesktopEntryGroup.new "G".toList).localized_fields).getD [])) :=
  c8_encoding_stored_verbatim_amended.1 (DesktopEntryGroup.new "G".toList)
    "Name[de_DE.UTF-8]".toList (ValueType.String "x".toList)
    "Name".toList "de_DE.UTF-8".toList (by decide)

/-- Claim C9: the public constructor swallows every parse failure — when
`try_from_path` errs, `from_path` returns the default empty entry, whose
accessors all return `none`. -/
theorem c9_from_path_swallows_errors :
    (∀ (path : List Char) (contents : Option (List (List Char))) (err : ParseError),
       ApplicationEntry.try_from_path path contents = .error err →
       ApplicationEntry.from_path path contents = ApplicationEntry.default)
    ∧ (∀ (key : List Char) (loc : Option (List Char)),
        ApplicationEntry.default.get_string key = none
        ∧ ApplicationEntry.default.get_localized_string key loc = none
        ∧ ApplicationEntry.default.get_bool key = none
        ∧ ApplicationEntry.default.get_numeric key = none
        ∧ ApplicationEntry.default.get_vec key = none)
    ∧ ApplicationEntry.default.name = none
    ∧ ApplicationEntry.default.exec = none
    ∧ ApplicationEntry.default.icon = none := by
  refine ⟨?_, fun key loc => ⟨rfl, rfl, rfl, rfl, rfl⟩, rfl, rfl, rfl⟩
  intro path contents err h
  unfold ApplicationEntry.from_path
  rw [h]

/-- Witness for C9: a document whose first line is a key-value pair fails
to parse, and `from_path` hands back the default entry. -/
theorem c9_from_path_swallows_errors_witness :
    ApplicationEntry.from_path fixture_path (some c9_bad_lines) = ApplicationEntry.default :=
  c9_from_path_swallows_errors.1 fixture_path (some c9_bad_lines)
    (ParseError.InvalidFormat "Key-value pair found before any group header") (by decide)

/-- One separator step of the tokenizer with an empty current token is a
no-op on the collected parts. -/
theorem pcl_go_sep_empty (parts : List (List Char)) (qc : Char) (t : List Char) :
    pcl_go parts [] false qc (' ' :: t) = pcl_go parts [] false qc t := by
  cases t <;> simp [pcl_go, is_sep]

/-- Tokenizing a run of quoted empty strings leaves no parts, no pending
token, and no open quote. -/
theorem pcl_go_quotes (l : List Bool) : ∀ qc : Char,
    pcl_go [] [] false qc (quotes_cmd l) = ([], [], false) := by
  induction l with
  | nil => intro qc; rfl
  | cons b rest ih =>
    intro qc
    cases rest with
    | nil => cases b <;> rfl
    | cons r rs =>
      cases b
      · simp only [quotes_cmd, quote_pair, Bool.false_eq_true, reduceIte, List.cons_append,
          List.nil_append]
        simp only [pcl_go, is_sep]
        rw [pcl_go_sep_empty]
        exact ih '"'
      · simp only [quotes_cmd, quote_pair, reduceIte, List.cons_append, List.nil_append]
        simp only [pcl_go, is_sep]
        rw [pcl_go_sep_empty]
        exact ih '\''

/-- Claim C10: a non-empty command consisting only of quoted empty strings
(single- or double-quoted, separated by single spaces) tokenizes to zero
tokens, so `parse_command_line` fails with the empty-command
`InvalidCommand` error even though the input itself is non-empty and its
quotes are balanced. -/
theorem c10_empty_quotes_empty_command :
    ∀ l : List Bool, l ≠ [] →
      quotes_cmd l ≠ []
      ∧ parse_command_line (quotes_cmd l) = .error (.InvalidCommand "Empty command") := by
  intro l hl
  constructor
  · cases l with
    | nil => exact absurd rfl hl
    | cons b rest =>
      cases rest with
      | nil => cases b <;> simp [quotes_cmd, quote_pair]
      | cons r rs => cases b <;> simp [quotes_cmd, quote_pair]
  · unfold parse_command_line
    rw [pcl_go_quotes l '"']
    rfl

/-- Witness for C10: the concrete command built from one single-quoted and
one double-quoted empty string. -/
theorem c10_empty_quotes_empty_command_witness :
    quotes_cmd [true, false] ≠ []
    ∧ parse_command_line (quotes_cmd [true, false])
        = .error (.InvalidCommand "Empty command") :=
  c10_empty_quotes_empty_command [true, false] (by decide)

end Freedesktop
